import Mathlib

/-!
Verification of the UMCPGamingBot catalog store, role-toggle engine,
rate limiter, keypad codec and menu generator against its specification.

The embedding follows the Python source:
  - src/plugins/umcp/db.py    (class UMCPDB: the catalog cache over postgres)
  - src/plugins/umcp/util.py  (MappingProxy, SpamLimit)
  - src/plugins/umcp/umcp.py  (class UMCPBot: toggle_role, autogen, cleanup)

Python dicts are embedded as insertion-ordered association lists keyed by
Nat (discord ids, serial row ids); `str.casefold()` is embedded as
`String.toLower` (the spec requires nothing beyond simple case-insensitive
comparison); database serial id assignment (`RETURNING id`) is embedded by
explicit counters in the state.  Operations that can raise are embedded
with `Option`/`Except`.
-/

namespace UMCP

/-- Association-list lookup, embedding Python `dict.get` / `d[k]`.
First binding for the key wins (keys are unique in every dict the
source builds, mirrored by the Nodup hypotheses of the theorems). -/
def alookup {α : Type} : List (Nat × α) → Nat → Option α
  | [], _ => none
  | (k, v) :: rest, key => if k = key then some v else alookup rest key

/-- Embedding of Python `d[k] = v`: replace in place if the key is
present (insertion order kept), else append. -/
def aset {α : Type} : List (Nat × α) → Nat → α → List (Nat × α)
  | [], k, v => [(k, v)]
  | (k1, v1) :: rest, k, v =>
      if k1 = k then (k1, v) :: rest else (k1, v1) :: aset rest k v

/-- Embedding of Python `d.pop(k)` / `del d[k]` (all bindings for the
key go; with unique keys this is exactly one). -/
def aerase {α : Type} (l : List (Nat × α)) (key : Nat) : List (Nat × α) :=
  l.filter (fun p => p.1 ≠ key)

/-- The keys of an association list. -/
def akeys {α : Type} (l : List (Nat × α)) : List Nat := l.map Prod.fst

/-- The values of an association list, embedding `dict.values()`
(insertion order). -/
def avalues {α : Type} (l : List (Nat × α)) : List α := l.map Prod.snd

/-- Embedding of `str.casefold()` (simple case-insensitive comparison,
per the spec no further normalisation is required). -/
def casefold (s : String) : String := s.toLower

/-- db.py `class Game(NamedTuple)`: name, discord role id, game row id. -/
structure Game where
  name : String
  role_id : Nat
  game_id : Nat
deriving Repr, DecidableEq

/-- db.py `class Alias(NamedTuple)`: name, game row id, alias row id. -/
structure Alias where
  name : String
  game_id : Nat
  alias_id : Nat
deriving Repr, DecidableEq

/-- The in-memory cache of `class UMCPDB` (db.py lines 83-95):
admins, games, aliases, role_messages, parent_games and its reverse
index sub_games.  `next_game_id`/`next_alias_id` embed the postgres
SERIAL sequences that `INSERT ... RETURNING id` draws from. -/
structure DBState where
  admins : List Nat
  games : List (Nat × Game)
  aliases : List (Nat × Alias)
  role_messages : List (Nat × List Nat)
  parent_games : List (Nat × Nat)
  sub_games : List (Nat × List Nat)
  next_game_id : Nat
  next_alias_id : Nat
deriving Repr, DecidableEq

/-- The empty cache (all five tables empty; serial sequences at 1). -/
def DBState.empty : DBState :=
  ⟨[], [], [], [], [], [], 1, 1⟩

/-- db.py `UMCPDB.get_sub_games`: `self.__sub_games.get(parent_game_id)`. -/
def get_sub_games (s : DBState) (parent_game_id : Nat) : Option (List Nat) :=
  alookup s.sub_games parent_game_id

/-- db.py `UMCPDB.get_parent_game`: `self.__parent_games.get(sub_game_id)`. -/
def get_parent_game (s : DBState) (sub_game_id : Nat) : Option Nat :=
  alookup s.parent_games sub_game_id

/-- db.py `UMCPDB.get_alias`: case-insensitive first match over
`self.aliases.values()`. -/
def get_alias (s : DBState) (alias_name : String) : Option Alias :=
  (avalues s.aliases).find? (fun a => casefold a.name == casefold alias_name)

/-- db.py `UMCPDB.get_game`: case-insensitive first match over
`self.games.values()`; if `check_alias` and no game matched, resolve via
`get_alias` and return `self.games[alias.game_id]` (a dangling alias
would raise KeyError in Python; here it yields `none`, and every theorem
below evaluates this only on states whose aliases reference live games). -/
def get_game (s : DBState) (game_name : String) (check_alias : Bool) : Option Game :=
  match (avalues s.games).find? (fun g => casefold g.name == casefold game_name) with
  | some g => some g
  | none =>
      if check_alias then
        match get_alias s game_name with
        | some a => alookup s.games a.game_id
        | none => none
      else none

/-- db.py `UMCPDB.add_admin`: no-op returning False if cached, else
insert then cache. -/
def add_admin (s : DBState) (discord_id : Nat) : Bool × DBState :=
  if discord_id ∈ s.admins then (false, s)
  else (true, { s with admins := s.admins ++ [discord_id] })

/-- db.py `UMCPDB.remove_admin` with an explicit persistence outcome.
The source removes the id from the cache FIRST (lines 198-199) and only
then runs the SQL DELETE (line 203); if the DELETE raises, the exception
propagates with the cache already mutated.  `.error` carries the cache
state left behind by the failed call. -/
def remove_admin_f (deleteFails : Bool) (s : DBState) (discord_id : Nat) :
    Except DBState (Bool × DBState) :=
  let s1 := if discord_id ∈ s.admins
            then { s with admins := s.admins.erase discord_id } else s
  if deleteFails then .error s1 else .ok (true, s1)

/-- db.py `UMCPDB.remove_admin`, success path. -/
def remove_admin (s : DBState) (discord_id : Nat) : Bool × DBState :=
  match remove_admin_f false s discord_id with
  | .ok r => r
  | .error s1 => (true, s1)

/-- db.py `UMCPDB.add_game`: reject (returning None) iff
`get_game(name, check_alias=True)` finds anything, else insert with a
fresh serial row id and cache the new Game. -/
def add_game (s : DBState) (game_name : String) (role_id : Nat) :
    Option Game × DBState :=
  if (get_game s game_name true).isSome then (none, s)
  else
    let gid := s.next_game_id
    let g : Game := ⟨game_name, role_id, gid⟩
    (some g, { s with games := aset s.games gid g, next_game_id := gid + 1 })

/-- The three raise sites of db.py `UMCPDB.add_alias`, in source order. -/
inductive DBError where
  | dupGame : DBError
  | dupAlias : DBError
  | unknownGame : DBError
deriving Repr, DecidableEq

/-- db.py `UMCPDB.add_alias`: raise DBError if the alias name collides
case-insensitively with a game name, then with an alias name; raise if
the game name does not resolve (no alias resolution: `get_game` with the
default `check_alias=False`); else insert with a fresh serial row id. -/
def add_alias (s : DBState) (game_name alias_name : String) :
    Except DBError (Alias × DBState) :=
  if (avalues s.games).any (fun g => casefold alias_name == casefold g.name) then
    .error .dupGame
  else if (avalues s.aliases).any (fun a => casefold alias_name == casefold a.name) then
    .error .dupAlias
  else
    match get_game s game_name false with
    | none => .error .unknownGame
    | some game =>
        let aid := s.next_alias_id
        let a : Alias := ⟨alias_name, game.game_id, aid⟩
        .ok (a, { s with aliases := aset s.aliases aid a, next_alias_id := aid + 1 })

/-- db.py `UMCPDB.remove_game` with explicit persistence outcomes for
its three DELETE statements (aliases, sub_games, games).  Cache
mutations interleave with the statements exactly as in the source
(lines 222-241): alias cache pops happen after the first DELETE,
hierarchy cache pops after the second, the game cache pop after the
third.  A failing DELETE raises out of the `with` block; `.error`
carries the cache state left behind at that point.  The row ids the
first DELETE RETURNING yields are, under cache/store agreement, exactly
the cached aliases whose game_id matches.  `if parent:` is Python
truthiness, false for both None and 0 — hence the `parent ≠ 0` test. -/
def remove_game_f (aliasDelFails subDelFails gameDelFails : Bool)
    (s : DBState) (game_id : Nat) : Except DBState (Bool × DBState) :=
  if (alookup s.games game_id).isNone then .ok (false, s)
  else if aliasDelFails then .error s
  else
    let s1 := { s with aliases := s.aliases.filter (fun p => p.2.game_id ≠ game_id) }
    if subDelFails then .error s1
    else
      let parentOpt := alookup s1.parent_games game_id
      let s2 := { s1 with parent_games := aerase s1.parent_games game_id }
      let s3 := match parentOpt with
        | some parent =>
            if parent ≠ 0 then
              let trimmed := ((alookup s2.sub_games parent).getD []).erase game_id
              { s2 with sub_games := aset s2.sub_games parent trimmed }
            else s2
        | none => s2
      let children := (alookup s3.sub_games game_id).getD []
      let s4 := { s3 with sub_games := aerase s3.sub_games game_id }
      let s5 := { s4 with parent_games :=
                    children.foldl (fun m c => aerase m c) s4.parent_games }
      if gameDelFails then .error s5
      else .ok (true, { s5 with games := aerase s5.games game_id })

/-- db.py `UMCPDB.remove_game`, success path (no DELETE fails). -/
def remove_game (s : DBState) (game_id : Nat) : Bool × DBState :=
  match remove_game_f false false false s game_id with
  | .ok r => r
  | .error _ => (false, s)

/-- db.py `UMCPDB.remove_alias`. -/
def remove_alias (s : DBState) (alias_id : Nat) : Bool × DBState :=
  if (alookup s.aliases alias_id).isNone then (false, s)
  else (true, { s with aliases := aerase s.aliases alias_id })

/-- db.py `UMCPDB.add_sub_game`: False if the sub already has a parent;
else insert the link, set the forward map and append to the reverse
index (`__sub_games` is a defaultdict(list): a missing parent entry
reads as []). -/
def add_sub_game (s : DBState) (sub_game_id parent_game_id : Nat) : Bool × DBState :=
  if (alookup s.parent_games sub_game_id).isSome then (false, s)
  else (true, { s with
      parent_games := aset s.parent_games sub_game_id parent_game_id,
      sub_games := aset s.sub_games parent_game_id
        (((alookup s.sub_games parent_game_id).getD []) ++ [sub_game_id]) })

/-- db.py `UMCPDB.remove_sub_game`. -/
def remove_sub_game (s : DBState) (sub_game_id : Nat) : Bool × DBState :=
  match alookup s.parent_games sub_game_id with
  | none => (false, s)
  | some parent =>
      (true, { s with
        parent_games := aerase s.parent_games sub_game_id,
        sub_games := aset s.sub_games parent
          (((alookup s.sub_games parent).getD []).erase sub_game_id) })

/-- db.py `UMCPDB.add_role_message`. -/
def add_role_message (s : DBState) (message_id : Nat) (game_ids : List Nat) :
    Bool × DBState :=
  if (alookup s.role_messages message_id).isSome then (false, s)
  else (true, { s with role_messages := aset s.role_messages message_id game_ids })

/-- db.py `UMCPDB.remove_role_message`. -/
def remove_role_message (s : DBState) (message_id : Nat) : Bool × DBState :=
  if (alookup s.role_messages message_id).isNone then (false, s)
  else (true, { s with role_messages := aerase s.role_messages message_id })

/-- Modelled from the spec: `make_keypad` is imported by umcp.py line 9
from `.util`, but src/plugins/umcp/util.py does not define it.  Spec
§4.4: the Keypad Codec encodes an index 0..9 as the menu symbol for
that digit — embedded as the digit character followed by the combining
enclosing keycap U+20E3. -/
def make_keypad (n : Nat) : String :=
  String.mk [Char.ofNat (48 + n), Char.ofNat 0x20E3]

/-- Modelled from the spec: `parse_keypad` is imported by umcp.py line 9
from `.util` but absent from src/plugins/umcp/util.py.  Spec §4.4:
decode(symbol) yields the index 0..9 when the symbol is in the codec's
alphabet and none for any other symbol. -/
def parse_keypad (s : String) : Option Nat :=
  match s.data with
  | [c, k] =>
      if k = Char.ofNat 0x20E3 ∧ 48 ≤ c.toNat ∧ c.toNat ≤ 57 then
        some (c.toNat - 48)
      else none
  | _ => none

/-- A cooldown bucket.  `rate` and `per` come from the configured
template; `last` is the timestamp stamped on the bucket and `uses` its
recorded use count (these two fields live in discord.py's
commands.Cooldown, outside this repository — see `acquire`). -/
structure Cooldown where
  rate : Nat
  per : Nat
  last : Nat
  uses : Nat
deriving Repr, DecidableEq

/-- util.py `class SpamLimit`: a per-user cache of cooldown buckets plus
the configured template (`self._cooldown`). -/
structure SpamLimit where
  cache : List (Nat × Cooldown)
  cooldown : Cooldown
deriving Repr, DecidableEq

/-- util.py `SpamLimit._verify_cache_integrity` (lines 44-48): drop
every bucket with `current > v._last + v.per`. -/
def verify_cache_integrity (now : Nat) (sl : SpamLimit) : SpamLimit :=
  { sl with cache := sl.cache.filter (fun p => ¬ (now > p.2.last + p.2.per)) }

/-- Modelled from the spec: the acquire step.  Eviction and
fresh-bucket creation follow util.py `SpamLimit.get_user` (lines 50-59:
run `_verify_cache_integrity`, then a missing user gets a fresh copy of
the template).  The use-recording half — stamp the fresh bucket with one
use at `now`, or increment the existing bucket's count, allowed while
uses ≤ rate — lives in discord.py's commands.Cooldown.update_rate_limit,
which is not part of this repository, and follows spec §4.3. -/
def acquire (now : Nat) (sl : SpamLimit) (user_id : Nat) : Bool × SpamLimit :=
  let sl1 := verify_cache_integrity now sl
  match alookup sl1.cache user_id with
  | none =>
      let bucket : Cooldown :=
        { sl1.cooldown with last := now, uses := 1 }
      (true, { sl1 with cache := aset sl1.cache user_id bucket })
  | some b =>
      let b1 : Cooldown := { b with uses := b.uses + 1 }
      (decide (b1.uses ≤ b1.rate), { sl1 with cache := aset sl1.cache user_id b1 })

/-- umcp.py `UMCPBot.toggle_role` (lines 299-328), up to but excluding
the final notification send.  A member's roles are embedded as the list
of discord role ids it holds; `umcp_server.get_role(id)` is embedded as
`id` itself and the discord role-name lookup as `roleName`.  Returns
(remove flag, all_names, roles after); `none` embeds the KeyError
raised by `self.db.games[...]` on an uncached id.  All membership tests
run against the `member.roles` snapshot taken at entry, matching the
discord.py Member object, whose cached role list is not synchronously
updated by add_roles/remove_roles HTTP calls. -/
def toggle_core (roleName : Nat → String) (s : DBState)
    (memberRoles : List Nat) (game_id : Nat) :
    Option (Bool × List String × List Nat) :=
  match alookup s.games game_id with
  | none => none
  | some game =>
    let role := game.role_id
    let remove := role ∈ memberRoles
    if remove then
      match ((get_sub_games s game.game_id).getD []).mapM
              (fun id => alookup s.games id) with
      | none => none
      | some children =>
          let sub_roles := children.map (fun g => g.role_id)
          let to_remove := sub_roles.filter (fun r => r ∈ memberRoles)
          let all_names := game.name :: to_remove.map roleName
          let roles1 := memberRoles.erase role
          let roles2 := to_remove.foldl (fun rs r => rs.erase r) roles1
          some (true, all_names, roles2)
    else
      let roles1 := memberRoles ++ [role]
      match alookup s.parent_games game_id with
      | some parent =>
          if parent ≠ 0 then
            match alookup s.games parent with
            | none => none
            | some pg =>
                if pg.role_id ∈ memberRoles then
                  some (false, [game.name], roles1)
                else
                  some (false, [game.name, roleName pg.role_id],
                        roles1 ++ [pg.role_id])
          else some (false, [game.name], roles1)
      | none => some (false, [game.name], roles1)

/-- umcp.py `UMCPBot.toggle_role` (lines 299-335) including the final
`role_channel.send` (lines 330-335), which runs after every role
mutation and is not wrapped in try/except: when it fails, the exception
propagates out of the toggle with the role changes already applied.
`.error` carries the same result payload the successful call yields. -/
def toggle_role (sendFails : Bool) (roleName : Nat → String) (s : DBState)
    (memberRoles : List Nat) (game_id : Nat) :
    Option (Except (Bool × List String × List Nat)
                   (Bool × List String × List Nat)) :=
  (toggle_core roleName s memberRoles game_id).map
    (fun res => if sendFails then .error res else .ok res)

/-- umcp.py `UMCPBot.autogen` sort key (line 213):
`key=lambda g: g.name.casefold()`, ascending, stable. -/
def autogen_le (a b : Game) : Bool :=
  decide (casefold a.name ≤ casefold b.name)

/-- umcp.py `UMCPBot.autogen` (lines 212-216): drop the miscellaneous
games from the catalog list, sort the rest case-insensitively by name,
then append the miscellaneous games in the order supplied. -/
def autogen_games (games misc_games : List Game) : List Game :=
  ((games.filter (fun g => ¬ misc_games.contains g)).mergeSort autogen_le)
    ++ misc_games

/-- umcp.py `UMCPBot.autogen` (lines 218-224):
`for x in range(0, len(all_games), 9): games = all_games[x:x+9]` —
the successive slices of 9 games each page shows. -/
def autogen_pages : List Game → List (List Game)
  | [] => []
  | a :: rest => ((a :: rest).take 9) :: autogen_pages (rest.drop 8)
termination_by l => l.length
decreasing_by
  simp only [List.length_drop, List.length_cons]
  omega

/-- umcp.py `UMCPBot.role_channel_cleanup` (line 413):
`sorted(self.db.role_messages.keys())[-1]`.  Indexing `[-1]` raises
IndexError on an empty list, embedded as `getLast?` returning none. -/
def cleanup_most_recent (s : DBState) : Option Nat :=
  ((akeys s.role_messages).mergeSort (fun a b => decide (a ≤ b))).getLast?

/-- The cache state after umcp.py's `registeralias` flow: `add_alias`
either returns the updated state or raises, leaving the store as it
was. -/
def add_alias_state (s : DBState) (game_name alias_name : String) : DBState :=
  match add_alias s game_name alias_name with
  | .ok (_, s1) => s1
  | .error _ => s

/-- N successive `add_sub_game` calls linking each id of `subs` under
the same parent. -/
def add_sub_fold (s : DBState) (parent : Nat) (subs : List Nat) : DBState :=
  subs.foldl (fun st sub => (add_sub_game st sub parent).2) s

/-- The case-insensitive names of all cached Games and Aliases — the
name pool `add_game`/`add_alias` collision-check against. -/
def catalogNames (s : DBState) : List String :=
  (avalues s.games).map (fun g => casefold g.name)
    ++ (avalues s.aliases).map (fun a => casefold a.name)

/-- Spec §8: no two entries among all Games and Aliases share a
case-insensitive name. -/
def NamesUnique (s : DBState) : Prop := (catalogNames s).Nodup

/-- The reverse index `__sub_games` agrees with the forward map
`__parent_games`: c is listed under p exactly when c's parent is p. -/
def revConsistent (s : DBState) : Prop :=
  ∀ p c, c ∈ (alookup s.sub_games p).getD [] ↔ alookup s.parent_games c = some p

/-- Structural well-formedness the cache maintains for games and
aliases: unique dict keys, serial keys below the sequence counters,
game values carrying their own row id, aliases referencing live
games. -/
structure CatalogWF (s : DBState) : Prop where
  names_unique : NamesUnique s
  games_keys_nodup : (akeys s.games).Nodup
  aliases_keys_nodup : (akeys s.aliases).Nodup
  games_keys_lt : ∀ k ∈ akeys s.games, k < s.next_game_id
  aliases_keys_lt : ∀ k ∈ akeys s.aliases, k < s.next_alias_id
  key_consistent : ∀ k g, alookup s.games k = some g → g.game_id = k
  alias_live : ∀ a ∈ avalues s.aliases, (alookup s.games a.game_id).isSome = true

/-- Structural well-formedness of the hierarchy maps: the reverse index
matches the forward map, child lists are duplicate-free, and parent row
ids are nonzero (postgres SERIAL starts at 1 — `remove_game`'s
`if parent:` truthiness test relies on this). -/
structure HierWF (s : DBState) : Prop where
  rev : revConsistent s
  sub_nodup : ∀ p, ((alookup s.sub_games p).getD []).Nodup
  parent_pos : ∀ c p, alookup s.parent_games c = some p → p ≠ 0

/-- The catalog states reachable from the empty store by `add_game` and
`add_alias` calls (any arguments, accepted or rejected). -/
inductive ReachGA : DBState → Prop where
  | init : ReachGA DBState.empty
  | addG {s} (game_name : String) (role_id : Nat) :
      ReachGA s → ReachGA (add_game s game_name role_id).2
  | addA {s} (game_name alias_name : String) :
      ReachGA s → ReachGA (add_alias_state s game_name alias_name)

/-- A concrete catalog: game A (row 1, role 10) parenting B (row 2,
role 20) and C (row 3, role 30), with one alias on A and one on B. -/
def exDB : DBState where
  admins := []
  games := [(1, ⟨"A", 10, 1⟩), (2, ⟨"B", 20, 2⟩), (3, ⟨"C", 30, 3⟩)]
  aliases := [(1, ⟨"a1", 1, 1⟩), (2, ⟨"b1", 2, 2⟩)]
  role_messages := []
  parent_games := [(2, 1), (3, 1)]
  sub_games := [(1, [2, 3])]
  next_game_id := 4
  next_alias_id := 3

/-- A store whose admin cache holds the single id 5. -/
def adminDB : DBState where
  admins := [5]
  games := []
  aliases := []
  role_messages := []
  parent_games := []
  sub_games := []
  next_game_id := 1
  next_alias_id := 1

/-- A concrete 20-game catalog list for the menu-paging scenarios. -/
def exGames20 : List Game :=
  (List.range 20).map (fun n => ⟨String.mk [Char.ofNat (97 + n)], n + 100, n + 1⟩)

/-- A concrete discord role-name collaborator. -/
def exRoleName : Nat → String := fun n => String.mk [Char.ofNat (65 + n % 26)]

theorem alookup_aset_self {α : Type} (l : List (Nat × α)) (k : Nat) (v : α) :
    alookup (aset l k v) k = some v := by
  induction l with
  | nil => simp [aset, alookup]
  | cons hd tl ih =>
      obtain ⟨k1, v1⟩ := hd
      by_cases h : k1 = k
      · simp [aset, alookup, h]
      · simp [aset, alookup, h, ih]

theorem alookup_aset_ne {α : Type} (l : List (Nat × α)) {k k2 : Nat} {v : α}
    (h : k2 ≠ k) : alookup (aset l k v) k2 = alookup l k2 := by
  have hsym : k ≠ k2 := Ne.symm h
  induction l with
  | nil => simp [aset, alookup, hsym]
  | cons hd tl ih =>
      obtain ⟨k1, v1⟩ := hd
      by_cases h1 : k1 = k
      · subst h1
        simp [aset, alookup, hsym]
      · simp [aset, alookup, h1, ih]

theorem alookup_eq_none_iff {α : Type} {l : List (Nat × α)} {k : Nat} :
    alookup l k = none ↔ k ∉ akeys l := by
  induction l with
  | nil => simp [alookup, akeys]
  | cons hd tl ih =>
      obtain ⟨k1, v1⟩ := hd
      by_cases h : k1 = k
      · subst h
        simp [alookup, akeys]
      · have hsym : k ≠ k1 := Ne.symm h
        simp [alookup, akeys, h, ih, hsym]

theorem aset_of_not_mem_keys {α : Type} {l : List (Nat × α)} {k : Nat} (v : α)
    (h : k ∉ akeys l) : aset l k v = l ++ [(k, v)] := by
  induction l with
  | nil => simp [aset]
  | cons hd tl ih =>
      obtain ⟨k1, v1⟩ := hd
      simp only [akeys, List.map_cons, List.mem_cons] at h
      push_neg at h
      have h1 : k1 ≠ k := Ne.symm h.1
      simp [aset, h1, ih (by simpa [akeys] using h.2)]

theorem mem_of_alookup_eq_some {α : Type} {l : List (Nat × α)} {k : Nat} {v : α}
    (h : alookup l k = some v) : (k, v) ∈ l := by
  induction l with
  | nil => simp [alookup] at h
  | cons hd tl ih =>
      obtain ⟨k1, v1⟩ := hd
      by_cases h1 : k1 = k
      · subst h1
        simp [alookup] at h
        simp [h]
      · simp only [alookup, if_neg h1] at h
        simp [ih h]

theorem alookup_of_mem_nodup {α : Type} {l : List (Nat × α)} {k : Nat} {v : α}
    (hnd : (akeys l).Nodup) (h : (k, v) ∈ l) : alookup l k = some v := by
  induction l with
  | nil => simp at h
  | cons hd tl ih =>
      obtain ⟨k1, v1⟩ := hd
      simp only [akeys, List.map_cons, List.nodup_cons] at hnd
      rcases List.mem_cons.1 h with h1 | h1
      · rw [Prod.mk.injEq] at h1
        simp [alookup, h1.1.symm, h1.2]
      · have hk1 : k1 ≠ k := by
          intro he
          exact hnd.1 (he ▸ (List.mem_map.2 ⟨(k, v), h1, rfl⟩))
        simp [alookup, hk1, ih hnd.2 h1]

theorem alookup_append_left {α : Type} {l1 l2 : List (Nat × α)} {k : Nat} {v : α}
    (h : alookup l1 k = some v) : alookup (l1 ++ l2) k = some v := by
  induction l1 with
  | nil => simp [alookup] at h
  | cons hd tl ih =>
      obtain ⟨k1, v1⟩ := hd
      by_cases h1 : k1 = k <;> simp_all [alookup]

theorem alookup_append_right {α : Type} {l1 l2 : List (Nat × α)} {k : Nat}
    (h : alookup l1 k = none) : alookup (l1 ++ l2) k = alookup l2 k := by
  induction l1 with
  | nil => simp
  | cons hd tl ih =>
      obtain ⟨k1, v1⟩ := hd
      by_cases h1 : k1 = k <;> simp_all [alookup]

theorem aerase_cons {α : Type} (k1 : Nat) (v1 : α) (tl : List (Nat × α)) (k : Nat) :
    aerase ((k1, v1) :: tl) k =
      if k1 = k then aerase tl k else (k1, v1) :: aerase tl k := by
  by_cases h : k1 = k <;> simp [aerase, List.filter_cons, h]

theorem alookup_aerase_self {α : Type} (l : List (Nat × α)) (k : Nat) :
    alookup (aerase l k) k = none := by
  induction l with
  | nil => rfl
  | cons hd tl ih =>
      obtain ⟨k1, v1⟩ := hd
      rw [aerase_cons]
      by_cases h : k1 = k
      · simpa [h] using ih
      · simp [h, alookup, ih]

theorem alookup_aerase_ne {α : Type} (l : List (Nat × α)) {k k2 : Nat}
    (h : k2 ≠ k) : alookup (aerase l k) k2 = alookup l k2 := by
  induction l with
  | nil => rfl
  | cons hd tl ih =>
      obtain ⟨k1, v1⟩ := hd
      rw [aerase_cons]
      by_cases h1 : k1 = k
      · subst h1
        have h2 : k1 ≠ k2 := Ne.symm h
        simp [alookup, h2, ih]
      · simp [alookup, h1, ih]

theorem alookup_foldl_aerase {α : Type} (ks : List Nat) (l : List (Nat × α))
    (k : Nat) :
    alookup (ks.foldl (fun m c => aerase m c) l) k =
      if k ∈ ks then none else alookup l k := by
  induction ks generalizing l with
  | nil => simp
  | cons c rest ih =>
      simp only [List.foldl_cons, ih, List.mem_cons]
      by_cases hc : k = c
      · subst hc
        simp [alookup_aerase_self]
      · by_cases hr : k ∈ rest <;> simp [hc, hr, alookup_aerase_ne _ hc]

/-- C10: with no stored MenuBindings, the periodic cleanup tick's
computation of the most recent menu message indexes the last element of
an empty sorted key list and fails — `cleanup_most_recent` is `none`,
embedding the IndexError — while it yields a value exactly when at
least one MenuBinding exists. -/
theorem cleanup_tick_partial_on_empty_bindings :
    cleanup_most_recent DBState.empty = none ∧
    ∀ s : DBState, s.role_messages ≠ [] →
      (cleanup_most_recent s).isSome = true := by
  constructor
  · simp [cleanup_most_recent, DBState.empty, akeys]
  · intro s hne
    rw [cleanup_most_recent, List.getLast?_isSome]
    intro hnil
    apply hne
    have hperm := List.mergeSort_perm (akeys s.role_messages)
      (fun a b => decide (a ≤ b))
    rw [hnil] at hperm
    have hkeys := hperm.symm.eq_nil
    simpa [akeys, List.map_eq_nil_iff] using hkeys

/-- Witness for C10: a store holding one binding, where the cleanup
computation succeeds. -/
theorem cleanup_tick_partial_witness :
    ({ DBState.empty with role_messages := [(5, [])] } : DBState).role_messages ≠ [] ∧
    (cleanup_most_recent { DBState.empty with role_messages := [(5, [])] }).isSome = true :=
  ⟨by decide, cleanup_tick_partial_on_empty_bindings.2 _ (by decide)⟩

/-- C6: the Keypad Codec is a pure bijection between indices 0–9 and
its symbols: decode after encode is the identity on 0–9, and decode
returns none on every string that is not one of the ten symbols. -/
theorem keypad_codec_bijection :
    (∀ i, i ≤ 9 → parse_keypad (make_keypad i) = some i) ∧
    (∀ s : String, (∀ i, i ≤ 9 → s ≠ make_keypad i) → parse_keypad s = none) := by
  constructor
  · decide
  · intro s hs
    obtain ⟨data⟩ := s
    rcases data with _ | ⟨c, _ | ⟨k, _ | ⟨x, rest⟩⟩⟩
    · rfl
    · rfl
    · show (if k = Char.ofNat 0x20E3 ∧ 48 ≤ c.toNat ∧ c.toNat ≤ 57 then
              some (c.toNat - 48) else none) = none
      by_cases hcond : k = Char.ofNat 0x20E3 ∧ 48 ≤ c.toNat ∧ c.toNat ≤ 57
      · exfalso
        obtain ⟨hk, h48, h57⟩ := hcond
        apply hs (c.toNat - 48) (by omega)
        rw [make_keypad]
        have he : 48 + (c.toNat - 48) = c.toNat := by omega
        rw [he, Char.ofNat_toNat, hk]
      · rw [if_neg hcond]
    · rfl

/-- Witness for C6: index 3 round-trips and an unrecognized symbol
decodes to none. -/
theorem keypad_codec_witness :
    parse_keypad (make_keypad 3) = some 3 ∧ parse_keypad "zzz" = none :=
  ⟨keypad_codec_bijection.1 3 (by decide),
   keypad_codec_bijection.2 "zzz" (by decide)⟩

/-- C1 evaluated at the failing inputs: `remove_admin` drops the id
from the admin cache before its DELETE statement runs, so when the
DELETE fails the operation fails with the cache already changed; and
when the second statement of the `remove_game` cascade (the sub_games
DELETE) fails, the alias cache is already updated while the game and
hierarchy caches are not — a partial cache update although the
operation fails. -/
theorem persistence_failure_leaves_torn_cache :
    (remove_admin_f true adminDB 5 = .error { adminDB with admins := [] }) ∧
    ({ adminDB with admins := ([] : List Nat) } ≠ adminDB) ∧
    (remove_game_f false true false exDB 1 =
       .error { exDB with aliases := [(2, ⟨"b1", 2, 2⟩)] }) ∧
    ({ exDB with aliases := [(2, (⟨"b1", 2, 2⟩ : Alias))] } ≠ exDB) := by
  refine ⟨rfl, by decide, rfl, by decide⟩

/-- C5: the Rate Limiter: a user with no surviving bucket gets a fresh
bucket copied from the configured template with one use recorded at the
current time and is allowed; a surviving bucket gets one more use
recorded and the call is allowed exactly while the recorded uses stay
within the rate; every call first evicts all buckets whose window has
fully elapsed (now > window start + per); and with rate=2 and a
10-second window, two calls for the same user inside the window are
allowed, a third is denied, and a call after the window has fully
elapsed is allowed again. -/
theorem rate_limiter_window_behavior :
    (∀ now (sl : SpamLimit) uid,
        alookup (verify_cache_integrity now sl).cache uid = none →
        (acquire now sl uid).1 = true ∧
        alookup (acquire now sl uid).2.cache uid =
          some { sl.cooldown with last := now, uses := 1 }) ∧
    (∀ now (sl : SpamLimit) uid b,
        alookup (verify_cache_integrity now sl).cache uid = some b →
        (acquire now sl uid).1 = decide (b.uses + 1 ≤ b.rate) ∧
        alookup (acquire now sl uid).2.cache uid =
          some { b with uses := b.uses + 1 }) ∧
    (∀ now (sl : SpamLimit) uid b,
        (uid, b) ∈ (verify_cache_integrity now sl).cache →
        ¬ now > b.last + b.per) ∧
    ((acquire 0 ⟨[], ⟨2, 10, 0, 0⟩⟩ 7).1 = true ∧
     (acquire 1 (acquire 0 ⟨[], ⟨2, 10, 0, 0⟩⟩ 7).2 7).1 = true ∧
     (acquire 2 (acquire 1 (acquire 0 ⟨[], ⟨2, 10, 0, 0⟩⟩ 7).2 7).2 7).1 = false ∧
     (acquire 11 (acquire 2 (acquire 1 (acquire 0 ⟨[], ⟨2, 10, 0, 0⟩⟩ 7).2 7).2 7).2 7).1
       = true) := by
  refine ⟨?_, ?_, ?_, by decide⟩
  · intro now sl uid h
    simp only [acquire, h]
    exact ⟨trivial, alookup_aset_self ..⟩
  · intro now sl uid b h
    simp only [acquire, h]
    exact ⟨trivial, alookup_aset_self ..⟩
  · intro now sl uid b h
    simp only [verify_cache_integrity, List.mem_filter, decide_not] at h
    simpa using h.2

/-- Witness for C5: the first call of a fresh user creates the bucket
and is allowed. -/
theorem rate_limiter_witness :
    alookup (verify_cache_integrity 0 ⟨[], ⟨2, 10, 0, 0⟩⟩).cache 7 = none ∧
    (acquire 0 ⟨[], ⟨2, 10, 0, 0⟩⟩ 7).1 = true ∧
    alookup (acquire 0 ⟨[], ⟨2, 10, 0, 0⟩⟩ 7).2.cache 7 =
      some (⟨2, 10, 0, 1⟩ : Cooldown) := by
  refine ⟨rfl, ?_⟩
  exact rate_limiter_window_behavior.1 0 ⟨[], ⟨2, 10, 0, 0⟩⟩ 7 rfl

/-- C9 counterexample: at a concrete catalog and member, a failing
notification send makes `toggle_role` surface the failure — the result
differs from the successful-send run, so the claim that the result is
unaffected fails. -/
theorem toggle_notification_counterexample :
    toggle_role true exRoleName exDB [] 2 ≠
      toggle_role false exRoleName exDB [] 2 ∧
    toggle_role true exRoleName exDB [] 2 =
      some (.error (false, ["B", exRoleName 10], [20, 10])) := by
  have h1 : toggle_role true exRoleName exDB [] 2 =
      some (.error (false, ["B", exRoleName 10], [20, 10])) := rfl
  have h2 : toggle_role false exRoleName exDB [] 2 =
      some (.ok (false, ["B", exRoleName 10], [20, 10])) := rfl
  refine ⟨?_, h1⟩
  intro h
  rw [h1, h2] at h
  simp at h

/-- C9 amended: the notification send is the last step of the toggle:
the role-membership changes and reported names are complete and
identical whether or not the send fails, but a send failure propagates
out of the toggle as the error outcome instead of leaving the result
unaffected. -/
theorem toggle_notification_failure_amended :
    ∀ (rn : Nat → String) (s : DBState) (roles : List Nat) (gid : Nat)
      (res : Bool × List String × List Nat),
      (toggle_role true rn s roles gid = some (.error res) ↔
       toggle_role false rn s roles gid = some (.ok res)) ∧
      toggle_role true rn s roles gid ≠ some (.ok res) := by
  intro rn s roles gid res
  constructor
  · unfold toggle_role
    cases toggle_core rn s roles gid <;> simp
  · unfold toggle_role
    cases toggle_core rn s roles gid <;> simp

theorem autogen_pages_nil : autogen_pages [] = [] := by
  rw [autogen_pages]

theorem autogen_pages_eq (l : List Game) (h : l ≠ []) :
    autogen_pages l = l.take 9 :: autogen_pages (l.drop 9) := by
  cases l with
  | nil => exact absurd rfl h
  | cons a rest =>
      rw [autogen_pages]
      rfl

theorem autogen_pages_of_length20 (l : List Game) (h : l.length = 20) :
    (autogen_pages l).map List.length = [9, 9, 2] := by
  have h1 : l ≠ [] := by
    intro he
    rw [he] at h
    simp at h
  have hd9 : (l.drop 9).length = 11 := by simp [h]
  have h2 : l.drop 9 ≠ [] := by
    intro he
    rw [he] at hd9
    simp at hd9
  have hd18 : ((l.drop 9).drop 9).length = 2 := by simp [h]
  have h3 : (l.drop 9).drop 9 ≠ [] := by
    intro he
    rw [he] at hd18
    simp at hd18
  have h4 : ((l.drop 9).drop 9).drop 9 = [] :=
    List.drop_eq_nil_of_le (by omega)
  rw [autogen_pages_eq l h1, autogen_pages_eq _ h2, autogen_pages_eq _ h3, h4,
      autogen_pages_nil]
  simp [List.length_take, h, hd9, hd18]

/-- C7: automatic menu generation: with 20 catalog games and no
miscellaneous exclusion the pages have sizes 9, 9, 2; with 2 of the
games given as miscellaneous and 18 remaining, the generated order is
the 18 remaining games sorted case-insensitively followed by the 2
miscellaneous games in the order supplied, the three pages are the
first 9 and next 9 of the sorted remainder and finally exactly the
miscellaneous list, the remainder is sorted, and no miscellaneous game
occurs in it (hence miscellaneous games appear only in the final
page). -/
theorem menu_autogen_paging :
    (∀ gs : List Game, gs.length = 20 →
       (autogen_pages (autogen_games gs [])).map List.length = [9, 9, 2]) ∧
    (∀ gs ms : List Game, ms.length = 2 →
       (gs.filter (fun g => ¬ ms.contains g)).length = 18 →
       autogen_games gs ms =
         ((gs.filter (fun g => ¬ ms.contains g)).mergeSort autogen_le) ++ ms ∧
       autogen_pages (autogen_games gs ms) =
         [((gs.filter (fun g => ¬ ms.contains g)).mergeSort autogen_le).take 9,
          ((gs.filter (fun g => ¬ ms.contains g)).mergeSort autogen_le).drop 9,
          ms] ∧
       List.Pairwise (fun a b => autogen_le a b = true)
         ((gs.filter (fun g => ¬ ms.contains g)).mergeSort autogen_le) ∧
       (∀ g ∈ (gs.filter (fun g => ¬ ms.contains g)).mergeSort autogen_le,
          g ∉ ms)) := by
  constructor
  · intro gs hlen
    have hf : gs.filter (fun g => ¬ ([] : List Game).contains g) = gs :=
      List.filter_eq_self.2 (by intro a ha; simp)
    have hg : autogen_games gs [] = gs.mergeSort autogen_le := by
      rw [autogen_games, hf, List.append_nil]
    rw [hg]
    exact autogen_pages_of_length20 _ (by rw [List.length_mergeSort]; exact hlen)
  · intro gs ms hms hrest
    set rest := (gs.filter (fun g => ¬ ms.contains g)).mergeSort autogen_le with hrdef
    have hrlen : rest.length = 18 := by
      rw [hrdef, List.length_mergeSort]
      exact hrest
    have hgames : autogen_games gs ms = rest ++ ms := rfl
    refine ⟨hgames, ?_, ?_, ?_⟩
    · have hne1 : rest ++ ms ≠ [] := by
        intro he
        have := congrArg List.length he
        simp [hrlen, hms] at this
      have htake1 : (rest ++ ms).take 9 = rest.take 9 :=
        List.take_append_of_le_length (by omega)
      have hdrop1 : (rest ++ ms).drop 9 = rest.drop 9 ++ ms :=
        List.drop_append_of_le_length (by omega)
      have hlen2 : (rest.drop 9).length = 9 := by simp [hrlen]
      have hne2 : rest.drop 9 ++ ms ≠ [] := by
        intro he
        have := congrArg List.length he
        simp [hlen2, hms] at this
      have htake2 : (rest.drop 9 ++ ms).take 9 = rest.drop 9 := by
        rw [List.take_append_of_le_length (by omega)]
        exact List.take_of_length_le (by omega)
      have hdrop2 : (rest.drop 9 ++ ms).drop 9 = ms := by
        rw [List.drop_append_of_le_length (by omega)]
        rw [List.drop_eq_nil_of_le (by omega)]
        exact List.nil_append ms
      have hne3 : ms ≠ [] := by
        intro he
        rw [he] at hms
        simp at hms
      have htake3 : ms.take 9 = ms := List.take_of_length_le (by omega)
      have hdrop3 : ms.drop 9 = [] := List.drop_eq_nil_of_le (by omega)
      rw [hgames, autogen_pages_eq _ hne1, htake1, hdrop1,
          autogen_pages_eq _ hne2, htake2, hdrop2,
          autogen_pages_eq _ hne3, htake3, hdrop3, autogen_pages_nil]
    · rw [hrdef]
      apply List.sorted_mergeSort
      · intro a b c hab hbc
        simp only [autogen_le, decide_eq_true_eq] at *
        exact le_trans hab hbc
      · intro a b
        simp only [autogen_le, Bool.or_eq_true, decide_eq_true_eq]
        exact le_total _ _
    · intro g hg hmem
      have hg2 : g ∈ gs.filter (fun g => ¬ ms.contains g) :=
        (List.mergeSort_perm _ _).subset hg
      have := (List.mem_filter.1 hg2).2
      simp [List.elem_iff] at this
      exact this hmem

/-- Witness for C7: a concrete 20-game catalog, without and with two
miscellaneous games. -/
theorem menu_autogen_paging_witness :
    exGames20.length = 20 ∧
    (autogen_pages (autogen_games exGames20 [])).map List.length = [9, 9, 2] ∧
    (exGames20.take 2).length = 2 ∧
    (exGames20.filter (fun g => ¬ (exGames20.take 2).contains g)).length = 18 ∧
    autogen_pages (autogen_games exGames20 (exGames20.take 2)) =
      [((exGames20.filter (fun g => ¬ (exGames20.take 2).contains g)).mergeSort
          autogen_le).take 9,
       ((exGames20.filter (fun g => ¬ (exGames20.take 2).contains g)).mergeSort
          autogen_le).drop 9,
       exGames20.take 2] := by
  refine ⟨by decide, menu_autogen_paging.1 exGames20 (by decide), by decide,
          by decide, (menu_autogen_paging.2 exGames20 (exGames20.take 2)
            (by decide) (by decide)).2.1⟩

theorem add_sub_game_accepted (s : DBState) (sub par : Nat)
    (h : alookup s.parent_games sub = none) :
    add_sub_game s sub par =
      (true, { s with
        parent_games := aset s.parent_games sub par,
        sub_games := aset s.sub_games par
          (((alookup s.sub_games par).getD []) ++ [sub]) }) := by
  simp [add_sub_game, h]

theorem add_sub_fold_spec (parent : Nat) (subs : List Nat) :
    ∀ s : DBState, subs.Nodup →
      (∀ x ∈ subs, alookup s.parent_games x = none) →
      (∀ c, c ∉ subs →
        alookup (add_sub_fold s parent subs).parent_games c =
          alookup s.parent_games c) ∧
      (∀ c ∈ subs,
        alookup (add_sub_fold s parent subs).parent_games c = some parent) ∧
      (subs ≠ [] →
        alookup (add_sub_fold s parent subs).sub_games parent =
          some ((alookup s.sub_games parent).getD [] ++ subs)) := by
  induction subs with
  | nil =>
      intro s _ _
      exact ⟨fun c _ => rfl, by simp, fun h => absurd rfl h⟩
  | cons x rest ih =>
      intro s hnd hfresh
      have hx : alookup s.parent_games x = none := hfresh x (by simp)
      have hxrest : x ∉ rest := (List.nodup_cons.1 hnd).1
      have hstep := add_sub_game_accepted s x parent hx
      have hfold : add_sub_fold s parent (x :: rest) =
          add_sub_fold (add_sub_game s x parent).2 parent rest := by
        simp [add_sub_fold]
      have hpg1 : (add_sub_game s x parent).2.parent_games =
          aset s.parent_games x parent := by rw [hstep]
      have hsg1 : (add_sub_game s x parent).2.sub_games =
          aset s.sub_games parent (((alookup s.sub_games parent).getD []) ++ [x]) := by
        rw [hstep]
      have hfresh1 : ∀ y ∈ rest,
          alookup (add_sub_game s x parent).2.parent_games y = none := by
        intro y hy
        have hyx : y ≠ x := fun he => hxrest (he ▸ hy)
        rw [hpg1, alookup_aset_ne _ hyx]
        exact hfresh y (List.mem_cons_of_mem _ hy)
      obtain ⟨ih1, ih2, ih3⟩ :=
        ih (add_sub_game s x parent).2 (List.nodup_cons.1 hnd).2 hfresh1
      refine ⟨?_, ?_, ?_⟩
      · intro c hc
        have hcx : c ≠ x := fun he => hc (he ▸ List.mem_cons_self ..)
        rw [hfold, ih1 c (fun h => hc (List.mem_cons_of_mem _ h)), hpg1,
            alookup_aset_ne _ hcx]
      · intro c hc
        rcases List.mem_cons.1 hc with he | hmem
        · subst he
          rw [hfold, ih1 c hxrest, hpg1]
          exact alookup_aset_self ..
        · rw [hfold]
          exact ih2 c hmem
      · intro _
        have hself : alookup (add_sub_game s x parent).2.sub_games parent =
            some (((alookup s.sub_games parent).getD []) ++ [x]) := by
          rw [hsg1]
          exact alookup_aset_self ..
        rcases rest with _ | ⟨y, rest2⟩
        · rw [hfold]
          simpa [add_sub_fold] using hself
        · rw [hfold, ih3 (by simp), hself]
          simp

/-- C8: `add_sub_game` returns false and changes nothing when the sub
id already has a parent; a call for a sub with no parent is accepted;
after N accepted calls with distinct fresh sub ids under one parent
with no previous children, `get_sub_games parent` is exactly that list
of N ids and every one of them maps back to the parent in the forward
map; and every accepted call keeps the reverse index consistent with
the forward map. -/
theorem add_sub_game_one_parent_reverse_index :
    (∀ (s : DBState) (sub par p : Nat),
        alookup s.parent_games sub = some p →
        add_sub_game s sub par = (false, s)) ∧
    (∀ (s : DBState) (sub par : Nat),
        alookup s.parent_games sub = none →
        (add_sub_game s sub par).1 = true) ∧
    (∀ (s : DBState) (parent : Nat) (subs : List Nat),
        subs ≠ [] → subs.Nodup →
        (∀ x ∈ subs, alookup s.parent_games x = none) →
        (alookup s.sub_games parent).getD [] = [] →
        get_sub_games (add_sub_fold s parent subs) parent = some subs ∧
        ∀ c ∈ subs, get_parent_game (add_sub_fold s parent subs) c = some parent) ∧
    (∀ (s : DBState) (sub par : Nat),
        revConsistent s →
        alookup s.parent_games sub = none →
        revConsistent (add_sub_game s sub par).2) := by
  refine ⟨?_, ?_, ?_, ?_⟩
  · intro s sub par p h
    simp [add_sub_game, h]
  · intro s sub par h
    simp [add_sub_game, h]
  · intro s parent subs hne hnd hfresh hempty
    obtain ⟨_, h2, h3⟩ := add_sub_fold_spec parent subs s hnd hfresh
    refine ⟨?_, fun c hc => h2 c hc⟩
    rw [get_sub_games, h3 hne, hempty]
    simp
  · intro s sub par hrev hfresh p c
    rw [add_sub_game_accepted s sub par hfresh]
    show c ∈ (alookup (aset s.sub_games par
        (((alookup s.sub_games par).getD []) ++ [sub])) p).getD [] ↔
      alookup (aset s.parent_games sub par) c = some p
    by_cases hc : c = sub
    · subst hc
      by_cases hp : p = par
      · subst hp
        simp [alookup_aset_self]
      · rw [alookup_aset_ne _ hp, alookup_aset_self]
        constructor
        · intro hmem
          have := (hrev p c).1 hmem
          rw [hfresh] at this
          exact absurd this (by simp)
        · intro h
          exact absurd (Option.some.inj h) (fun he => hp he.symm)
    · by_cases hp : p = par
      · rw [hp, alookup_aset_self, alookup_aset_ne _ hc]
        simp only [Option.getD_some, List.mem_append, List.mem_singleton]
        constructor
        · intro hmem
          rcases hmem with hm | hm
          · exact (hrev par c).1 hm
          · exact absurd hm hc
        · intro h
          exact Or.inl ((hrev par c).2 h)
      · rw [alookup_aset_ne _ hp, alookup_aset_ne _ hc]
        exact hrev p c

/-- Witness for C8: three accepted links under parent 10 on the empty
store. -/
theorem add_sub_game_witness :
    get_sub_games (add_sub_fold DBState.empty 10 [4, 5, 6]) 10 = some [4, 5, 6] ∧
    get_parent_game (add_sub_fold DBState.empty 10 [4, 5, 6]) 5 = some 10 ∧
    add_sub_game (add_sub_fold DBState.empty 10 [4, 5, 6]) 5 77 =
      (false, add_sub_fold DBState.empty 10 [4, 5, 6]) := by
  have h := add_sub_game_one_parent_reverse_index.2.2.1 DBState.empty 10 [4, 5, 6]
    (by decide) (by decide) (by decide) (by decide)
  refine ⟨h.1, h.2 5 (by decide), ?_⟩
  exact add_sub_game_one_parent_reverse_index.1 _ 5 77 10 (by decide)

theorem mem_foldl_erase_of_not_mem {a : Nat} (rs : List Nat) (l : List Nat)
    (hmem : a ∈ l) (hnot : a ∉ rs) :
    a ∈ rs.foldl (fun rs2 r => rs2.erase r) l := by
  induction rs generalizing l with
  | nil => simpa
  | cons r rest ih =>
      simp only [List.foldl_cons]
      have har : a ≠ r := fun he => hnot (he ▸ List.mem_cons_self ..)
      exact ih (l.erase r) ((List.mem_erase_of_ne har).2 hmem)
        (fun h => hnot (List.mem_cons_of_mem _ h))

theorem not_mem_foldl_erase_of_not_mem (rs l : List Nat) {a : Nat} (h : a ∉ l) :
    a ∉ rs.foldl (fun rs2 r => rs2.erase r) l := by
  induction rs generalizing l with
  | nil => simpa
  | cons r rest ih =>
      simp only [List.foldl_cons]
      exact ih _ (fun hm => h (List.mem_of_mem_erase hm))

theorem not_mem_foldl_erase_of_mem (rs : List Nat) (l : List Nat) {a : Nat}
    (hnd : l.Nodup) (hmem : a ∈ rs) :
    a ∉ rs.foldl (fun rs2 r => rs2.erase r) l := by
  induction rs generalizing l with
  | nil => simp at hmem
  | cons r rest ih =>
      simp only [List.foldl_cons]
      rcases List.mem_cons.1 hmem with he | hm
      · subst he
        exact not_mem_foldl_erase_of_not_mem _ _ hnd.not_mem_erase
      · exact ih _ (hnd.erase r) hm

/-- C4: the toggle hierarchy cascade.  (1) Toggling a game g with
parent p for a member not holding g's role leaves the member holding
both g's and p's roles.  (2) Toggling g while held removes g's role but
leaves the parent role present (only children cascade on removal).
(3) Toggling a held parent removes its role and every held child
role. -/
theorem toggle_role_hierarchy_cascade :
    (∀ (rn : Nat → String) (s : DBState) (roles : List Nat) (g p : Nat)
       (game pgame : Game),
       alookup s.games g = some game →
       alookup s.parent_games g = some p →
       p ≠ 0 →
       alookup s.games p = some pgame →
       game.role_id ∉ roles →
       ∃ names roles2, toggle_core rn s roles g = some (false, names, roles2) ∧
         game.role_id ∈ roles2 ∧ pgame.role_id ∈ roles2) ∧
    (∀ (rn : Nat → String) (s : DBState) (roles : List Nat) (g p : Nat)
       (game pgame : Game) (kids : List Game),
       alookup s.games g = some game →
       alookup s.parent_games g = some p →
       alookup s.games p = some pgame →
       roles.Nodup →
       game.role_id ∈ roles →
       pgame.role_id ∈ roles →
       pgame.role_id ≠ game.role_id →
       ((get_sub_games s game.game_id).getD []).mapM
         (fun id => alookup s.games id) = some kids →
       pgame.role_id ∉ kids.map (fun k => k.role_id) →
       ∃ names roles2, toggle_core rn s roles g = some (true, names, roles2) ∧
         game.role_id ∉ roles2 ∧ pgame.role_id ∈ roles2) ∧
    (∀ (rn : Nat → String) (s : DBState) (roles : List Nat) (p : Nat)
       (pgame : Game) (kids : List Game),
       alookup s.games p = some pgame →
       roles.Nodup →
       pgame.role_id ∈ roles →
       ((get_sub_games s pgame.game_id).getD []).mapM
         (fun id => alookup s.games id) = some kids →
       ∃ names roles2, toggle_core rn s roles p = some (true, names, roles2) ∧
         pgame.role_id ∉ roles2 ∧
         ∀ kg ∈ kids, kg.role_id ∈ roles → kg.role_id ∉ roles2) := by
  refine ⟨?_, ?_, ?_⟩
  · intro rn s roles g p game pgame hg hparent hppos hpg hnotmem
    by_cases hpr : pgame.role_id ∈ roles
    · refine ⟨[game.name], roles ++ [game.role_id], ?_, by simp,
        List.mem_append_left _ hpr⟩
      simp only [toggle_core, hg, hparent, hpg, hnotmem, hppos, hpr, if_true,
        if_false, not_false_iff]
      rw [if_pos hppos]
    · refine ⟨[game.name, rn pgame.role_id],
        (roles ++ [game.role_id]) ++ [pgame.role_id], ?_, by simp, by simp⟩
      simp only [toggle_core, hg, hparent, hpg, hnotmem, hppos, hpr, if_true,
        if_false, not_false_iff]
      rw [if_pos hppos]
  · intro rn s roles g p game pgame kids hg hparent hpg hnd hgmem hpmem hne
      hkids hpnk
    refine ⟨game.name ::
        (((kids.map (fun k => k.role_id)).filter (fun r => r ∈ roles)).map rn),
      ((kids.map (fun k => k.role_id)).filter (fun r => r ∈ roles)).foldl
        (fun rs r => rs.erase r) (roles.erase game.role_id), ?_, ?_, ?_⟩
    · simp only [toggle_core, hg, hgmem, if_true, hkids]
    · exact not_mem_foldl_erase_of_not_mem _ _ hnd.not_mem_erase
    · apply mem_foldl_erase_of_not_mem
      · exact (List.mem_erase_of_ne hne).2 hpmem
      · intro h
        exact hpnk (List.mem_filter.1 h).1
  · intro rn s roles p pgame kids hp hnd hpmem hkids
    refine ⟨pgame.name ::
        (((kids.map (fun k => k.role_id)).filter (fun r => r ∈ roles)).map rn),
      ((kids.map (fun k => k.role_id)).filter (fun r => r ∈ roles)).foldl
        (fun rs r => rs.erase r) (roles.erase pgame.role_id), ?_, ?_, ?_⟩
    · simp only [toggle_core, hp, hpmem, if_true, hkids]
    · exact not_mem_foldl_erase_of_not_mem _ _ hnd.not_mem_erase
    · intro kg hkg hheld
      apply not_mem_foldl_erase_of_mem _ _ (hnd.erase pgame.role_id)
      rw [List.mem_filter]
      refine ⟨List.mem_map.2 ⟨kg, hkg, rfl⟩, by simpa using hheld⟩

/-- Witness for C4 at the concrete catalog `exDB`: game B (role 20) has
parent A (role 10); C (role 30) is A's other child. -/
theorem toggle_role_hierarchy_witness :
    (∃ names roles2, toggle_core exRoleName exDB [] 2 = some (false, names, roles2) ∧
       20 ∈ roles2 ∧ 10 ∈ roles2) ∧
    (∃ names roles2, toggle_core exRoleName exDB [20, 10] 2 = some (true, names, roles2) ∧
       20 ∉ roles2 ∧ 10 ∈ roles2) ∧
    (∃ names roles2, toggle_core exRoleName exDB [10, 20, 30] 1 = some (true, names, roles2) ∧
       10 ∉ roles2 ∧
       ∀ kg ∈ [(⟨"B", 20, 2⟩ : Game), ⟨"C", 30, 3⟩],
         kg.role_id ∈ [10, 20, 30] → kg.role_id ∉ roles2) := by
  refine ⟨?_, ?_, ?_⟩
  · exact toggle_role_hierarchy_cascade.1 exRoleName exDB [] 2 1
      ⟨"B", 20, 2⟩ ⟨"A", 10, 1⟩ rfl rfl (by decide) rfl (by decide)
  · exact toggle_role_hierarchy_cascade.2.1 exRoleName exDB [20, 10] 2 1
      ⟨"B", 20, 2⟩ ⟨"A", 10, 1⟩ [] rfl rfl rfl (by decide) (by decide)
      (by decide) (by decide) rfl (by decide)
  · exact toggle_role_hierarchy_cascade.2.2 exRoleName exDB [10, 20, 30] 1
      ⟨"A", 10, 1⟩ [⟨"B", 20, 2⟩, ⟨"C", 30, 3⟩] rfl (by decide) (by decide) rfl

theorem avalues_aset_not_mem {α : Type} {l : List (Nat × α)} {k : Nat} (v : α)
    (h : k ∉ akeys l) : avalues (aset l k v) = avalues l ++ [v] := by
  rw [aset_of_not_mem_keys v h]
  simp [avalues]

theorem akeys_aset_not_mem {α : Type} {l : List (Nat × α)} {k : Nat} (v : α)
    (h : k ∉ akeys l) : akeys (aset l k v) = akeys l ++ [k] := by
  rw [aset_of_not_mem_keys v h]
  simp [akeys]

theorem nodup_append_singleton {α : Type} {x : α} {l : List α}
    (hx : x ∉ l) (hl : l.Nodup) : (l ++ [x]).Nodup :=
  (List.nodup_cons.2 ⟨hx, hl⟩).perm (List.perm_append_singleton x l).symm

theorem get_game_checkalias_isSome_iff (s : DBState) (n : String)
    (halive : ∀ a ∈ avalues s.aliases, (alookup s.games a.game_id).isSome = true) :
    (get_game s n true).isSome = true ↔ casefold n ∈ catalogNames s := by
  cases hfind : (avalues s.games).find? (fun g => casefold g.name == casefold n) with
  | some g =>
      simp only [get_game, hfind, Option.isSome_some, true_iff]
      have hmem := List.mem_of_find?_eq_some hfind
      have hp := List.find?_some hfind
      rw [beq_iff_eq] at hp
      exact List.mem_append_left _ (List.mem_map.2 ⟨g, hmem, hp⟩)
  | none =>
      cases halias : get_alias s n with
      | none =>
          simp only [get_game, hfind, halias, if_true, Option.isSome_none]
          constructor
          · intro hh
            cases hh
          · intro hmem
            exfalso
            rcases List.mem_append.1 hmem with hm | hm
            · obtain ⟨g, hgmem, hge⟩ := List.mem_map.1 hm
              have hno := List.find?_eq_none.1 hfind g hgmem
              rw [beq_iff_eq] at hno
              exact hno hge
            · obtain ⟨a, hamem, hae⟩ := List.mem_map.1 hm
              have hno := List.find?_eq_none.1 halias a hamem
              rw [beq_iff_eq] at hno
              exact hno hae
      | some a =>
          have hamem : a ∈ avalues s.aliases := List.mem_of_find?_eq_some halias
          obtain ⟨g, hgl⟩ := Option.isSome_iff_exists.1 (halive a hamem)
          simp only [get_game, hfind, halias, if_true, hgl, Option.isSome_some,
            true_iff]
          have hp := List.find?_some halias
          rw [beq_iff_eq] at hp
          exact List.mem_append_right _ (List.mem_map.2 ⟨a, hamem, hp⟩)

theorem alookup_self_of_mem_values {s : DBState} {game : Game}
    (h : CatalogWF s) (hg : game ∈ avalues s.games) :
    alookup s.games game.game_id = some game := by
  obtain ⟨kv, hmem, hsnd⟩ := List.mem_map.1 hg
  obtain ⟨k, g2⟩ := kv
  have hgeq : g2 = game := hsnd
  subst hgeq
  have hl := alookup_of_mem_nodup h.games_keys_nodup hmem
  have hid := h.key_consistent k g2 hl
  rw [hid]
  exact hl

theorem catalogWF_empty : CatalogWF DBState.empty := by
  refine ⟨?_, ?_, ?_, ?_, ?_, ?_, ?_⟩ <;>
    simp [NamesUnique, catalogNames, avalues, akeys, DBState.empty, alookup]

theorem catalogWF_add_game (s : DBState) (n : String) (r : Nat)
    (h : CatalogWF s) : CatalogWF (add_game s n r).2 := by
  by_cases hre : (get_game s n true).isSome = true
  · have : (add_game s n r).2 = s := by simp [add_game, hre]
    rw [this]
    exact h
  · have hfresh : casefold n ∉ catalogNames s := fun hm =>
      hre ((get_game_checkalias_isSome_iff s n h.alias_live).2 hm)
    have hkey : s.next_game_id ∉ akeys s.games := fun hm =>
      absurd (h.games_keys_lt _ hm) (lt_irrefl _)
    have hstate : (add_game s n r).2 = { s with
        games := aset s.games s.next_game_id ⟨n, r, s.next_game_id⟩,
        next_game_id := s.next_game_id + 1 } := by
      simp [add_game, hre]
    rw [hstate]
    have hav := avalues_aset_not_mem (⟨n, r, s.next_game_id⟩ : Game) hkey
    have hak := akeys_aset_not_mem (⟨n, r, s.next_game_id⟩ : Game) hkey
    refine ⟨?_, ?_, ?_, ?_, ?_, ?_, ?_⟩
    · show ((avalues (aset s.games s.next_game_id ⟨n, r, s.next_game_id⟩)).map
          (fun g => casefold g.name) ++
          (avalues s.aliases).map (fun a => casefold a.name)).Nodup
      rw [hav, List.map_append]
      have hperm :
          (((avalues s.games).map (fun g => casefold g.name) ++ [casefold n]) ++
            (avalues s.aliases).map (fun a => casefold a.name)).Perm
          (((avalues s.games).map (fun g => casefold g.name) ++
            (avalues s.aliases).map (fun a => casefold a.name)) ++ [casefold n]) := by
        rw [List.append_assoc, List.append_assoc]
        exact List.Perm.append_left _ List.perm_append_comm
      exact (nodup_append_singleton hfresh h.names_unique).perm hperm.symm
    · rw [hak]
      exact nodup_append_singleton hkey h.games_keys_nodup
    · exact h.aliases_keys_nodup
    · intro k hk
      rw [hak] at hk
      rcases List.mem_append.1 hk with hm | hm
      · exact Nat.lt_succ_of_lt (h.games_keys_lt k hm)
      · rw [List.mem_singleton.1 hm]
        exact Nat.lt_succ_self _
    · exact h.aliases_keys_lt
    · intro k g hk
      by_cases hke : k = s.next_game_id
      · subst hke
        rw [alookup_aset_self] at hk
        cases hk
        rfl
      · rw [alookup_aset_ne _ hke] at hk
        exact h.key_consistent k g hk
    · intro a ha
      by_cases hae : a.game_id = s.next_game_id
      · rw [hae, alookup_aset_self]
        rfl
      · rw [alookup_aset_ne _ hae]
        exact h.alias_live a ha

theorem get_game_nocheck_mem {s : DBState} {n : String} {game : Game}
    (hg : get_game s n false = some game) : game ∈ avalues s.games := by
  cases hf : (avalues s.games).find? (fun g => casefold g.name == casefold n) with
  | some g =>
      rw [get_game, hf] at hg
      cases hg
      exact List.mem_of_find?_eq_some hf
  | none =>
      rw [get_game, hf] at hg
      simp at hg

theorem catalogWF_add_alias (s : DBState) (gn an : String)
    (h : CatalogWF s) : CatalogWF (add_alias_state s gn an) := by
  rw [add_alias_state]
  by_cases h1 : (avalues s.games).any (fun g => casefold an == casefold g.name) = true
  · simp only [add_alias, h1, if_true]
    exact h
  · rw [Bool.not_eq_true] at h1
    by_cases h2 : (avalues s.aliases).any (fun a => casefold an == casefold a.name) = true
    · simp only [add_alias, h1, h2, Bool.false_eq_true, if_false, if_true]
      exact h
    · rw [Bool.not_eq_true] at h2
      cases hg : get_game s gn false with
      | none =>
          simp only [add_alias, h1, h2, hg, Bool.false_eq_true, if_false]
          exact h
      | some game =>
          simp only [add_alias, h1, h2, hg, Bool.false_eq_true, if_false]
          have hfresh : casefold an ∉ catalogNames s := by
            intro hm
            rcases List.mem_append.1 hm with hm | hm
            · obtain ⟨g, hgm, hge⟩ := List.mem_map.1 hm
              have hany : (avalues s.games).any
                  (fun g => casefold an == casefold g.name) = true :=
                List.any_eq_true.2 ⟨g, hgm, by rw [beq_iff_eq]; exact hge.symm⟩
              simp [h1] at hany
            · obtain ⟨a, ham, hae⟩ := List.mem_map.1 hm
              have hany : (avalues s.aliases).any
                  (fun a => casefold an == casefold a.name) = true :=
                List.any_eq_true.2 ⟨a, ham, by rw [beq_iff_eq]; exact hae.symm⟩
              simp [h2] at hany
          have hkey : s.next_alias_id ∉ akeys s.aliases := fun hm =>
            absurd (h.aliases_keys_lt _ hm) (lt_irrefl _)
          have hav := avalues_aset_not_mem
            (⟨an, game.game_id, s.next_alias_id⟩ : Alias) hkey
          have hak := akeys_aset_not_mem
            (⟨an, game.game_id, s.next_alias_id⟩ : Alias) hkey
          refine ⟨?_, ?_, ?_, ?_, ?_, ?_, ?_⟩
          · show ((avalues s.games).map (fun g => casefold g.name) ++
              (avalues (aset s.aliases s.next_alias_id
                ⟨an, game.game_id, s.next_alias_id⟩)).map
                (fun a => casefold a.name)).Nodup
            rw [hav, List.map_append, ← List.append_assoc]
            exact nodup_append_singleton hfresh h.names_unique
          · exact h.games_keys_nodup
          · rw [hak]
            exact nodup_append_singleton hkey h.aliases_keys_nodup
          · exact h.games_keys_lt
          · intro k hk
            rw [hak] at hk
            rcases List.mem_append.1 hk with hm | hm
            · exact Nat.lt_succ_of_lt (h.aliases_keys_lt k hm)
            · rw [List.mem_singleton.1 hm]
              exact Nat.lt_succ_self _
          · exact h.key_consistent
          · intro a ha
            rw [hav] at ha
            rcases List.mem_append.1 ha with hm | hm
            · exact h.alias_live a hm
            · rw [List.mem_singleton.1 hm]
              show (alookup s.games game.game_id).isSome = true
              rw [alookup_self_of_mem_values h (get_game_nocheck_mem hg)]
              rfl

theorem reachGA_wf : ∀ {s : DBState}, ReachGA s → CatalogWF s := by
  intro s h
  induction h with
  | init => exact catalogWF_empty
  | addG n r _ ih => exact catalogWF_add_game _ n r ih
  | addA gn an _ ih => exact catalogWF_add_alias _ gn an ih

/-- C3: in every catalog state reachable by addGame and addAlias no two
Games/Aliases share a case-insensitive name; `add_game` rejects (with
the duplicate outcome, leaving the store unchanged) exactly when the
name collides case-insensitively with an existing Game or Alias name;
and `add_alias` raises a duplicate-name DBError exactly when the alias
name so collides, leaving the store unchanged on every error. -/
theorem catalog_name_uniqueness :
    (∀ s : DBState, ReachGA s → NamesUnique s) ∧
    (∀ (s : DBState) (n : String) (r : Nat), ReachGA s →
       (((add_game s n r).1 = none) ↔ casefold n ∈ catalogNames s) ∧
       ((add_game s n r).1 = none → (add_game s n r).2 = s)) ∧
    (∀ (s : DBState) (gn an : String),
       ((add_alias s gn an = .error .dupGame ∨
         add_alias s gn an = .error .dupAlias) ↔
         casefold an ∈ catalogNames s) ∧
       (∀ e, add_alias s gn an = .error e → add_alias_state s gn an = s)) := by
  refine ⟨?_, ?_, ?_⟩
  · intro s h
    exact (reachGA_wf h).names_unique
  · intro s n r h
    have hiff := get_game_checkalias_isSome_iff s n (reachGA_wf h).alias_live
    refine ⟨⟨?_, ?_⟩, ?_⟩
    · intro hnone
      apply hiff.1
      by_contra hns
      simp [add_game, hns] at hnone
    · intro hmem
      have hs := hiff.2 hmem
      simp [add_game, hs]
    · intro hnone
      by_cases hs : (get_game s n true).isSome = true
      · simp [add_game, hs]
      · simp [add_game, hs] at hnone
  · intro s gn an
    refine ⟨⟨?_, ?_⟩, ?_⟩
    · rintro (he | he) <;>
      · by_cases h1 : (avalues s.games).any
            (fun g => casefold an == casefold g.name) = true
        · obtain ⟨g, hgm, hp⟩ := List.any_eq_true.1 h1
          rw [beq_iff_eq] at hp
          exact List.mem_append_left _ (List.mem_map.2 ⟨g, hgm, hp.symm⟩)
        · rw [Bool.not_eq_true] at h1
          by_cases h2 : (avalues s.aliases).any
              (fun a => casefold an == casefold a.name) = true
          · obtain ⟨a, ham, hp⟩ := List.any_eq_true.1 h2
            rw [beq_iff_eq] at hp
            exact List.mem_append_right _ (List.mem_map.2 ⟨a, ham, hp.symm⟩)
          · rw [Bool.not_eq_true] at h2
            exfalso
            cases hgg : get_game s gn false <;>
              simp [add_alias, h1, h2, hgg] at he
    · intro hmem
      by_cases h1 : (avalues s.games).any
          (fun g => casefold an == casefold g.name) = true
      · left
        simp [add_alias, h1]
      · right
        rw [Bool.not_eq_true] at h1
        have h2 : (avalues s.aliases).any
            (fun a => casefold an == casefold a.name) = true := by
          rcases List.mem_append.1 hmem with hm | hm
          · exfalso
            obtain ⟨g, hgm, hge⟩ := List.mem_map.1 hm
            have hany : (avalues s.games).any
                (fun g => casefold an == casefold g.name) = true :=
              List.any_eq_true.2 ⟨g, hgm, by rw [beq_iff_eq]; exact hge.symm⟩
            simp [h1] at hany
          · obtain ⟨a, ham, hae⟩ := List.mem_map.1 hm
            exact List.any_eq_true.2 ⟨a, ham, by rw [beq_iff_eq]; exact hae.symm⟩
        simp [add_alias, h1, h2]
    · intro e he
      rw [add_alias_state, he]

/-- Witness for C3: the one-game store built by adding "Chess" is
uniquely named, and re-adding it as "chess" is rejected. -/
theorem catalog_name_uniqueness_witness :
    NamesUnique (add_game DBState.empty "Chess" 7).2 ∧
    (((add_game (add_game DBState.empty "Chess" 7).2 "chess" 9).1 = none) ↔
      casefold "chess" ∈ catalogNames (add_game DBState.empty "Chess" 7).2) := by
  have hreach : ReachGA (add_game DBState.empty "Chess" 7).2 :=
    ReachGA.addG "Chess" 7 ReachGA.init
  exact ⟨catalog_name_uniqueness.1 _ hreach,
    (catalog_name_uniqueness.2.1 _ "chess" 9 hreach).1⟩

/-- C2: `remove_game` on an unknown id returns false and changes
nothing; on a known id (in a well-formed hierarchy state) it succeeds
and afterwards no Alias references the game, the game is gone from the
games cache, no HierarchyLink has it as sub (forward map) or as parent
(no child still maps to it), its reverse-index entry is gone, and no
remaining parent's child list contains it (no stale reverse index). -/
theorem remove_game_cascade_complete :
    (∀ (s : DBState) (g : Nat), alookup s.games g = none →
        remove_game s g = (false, s)) ∧
    (∀ (s : DBState) (g : Nat) (game : Game), HierWF s →
        alookup s.games g = some game →
        (remove_game s g).1 = true ∧
        (∀ a ∈ avalues (remove_game s g).2.aliases, a.game_id ≠ g) ∧
        alookup (remove_game s g).2.games g = none ∧
        alookup (remove_game s g).2.parent_games g = none ∧
        (∀ c p, alookup (remove_game s g).2.parent_games c = some p → p ≠ g) ∧
        alookup (remove_game s g).2.sub_games g = none ∧
        (∀ p, g ∉ (get_sub_games (remove_game s g).2 p).getD [])) := by
  constructor
  · intro s g h
    simp [remove_game, remove_game_f, h]
  · intro s g game hwf hg
    cases hpar : alookup s.parent_games g with
    | none =>
        have hshape : remove_game s g = (true, { s with
            aliases := s.aliases.filter (fun p => p.2.game_id ≠ g),
            games := aerase s.games g,
            parent_games := ((alookup s.sub_games g).getD []).foldl
              (fun m c => aerase m c) (aerase s.parent_games g),
            sub_games := aerase s.sub_games g }) := by
          simp only [remove_game, remove_game_f, hg, hpar, Option.isNone_some,
            Bool.false_eq_true, if_false]
        rw [hshape]
        refine ⟨rfl, ?_, alookup_aerase_self .., ?_, ?_, alookup_aerase_self .., ?_⟩
        · intro a ha
          obtain ⟨kv, hkv, hsnd⟩ := List.mem_map.1 ha
          have hpred := (List.mem_filter.1 hkv).2
          rw [← hsnd]
          simpa using hpred
        · rw [alookup_foldl_aerase]
          by_cases hgc : g ∈ (alookup s.sub_games g).getD []
          · simp [hgc]
          · simp [hgc, alookup_aerase_self]
        · intro c p hc
          rw [alookup_foldl_aerase] at hc
          by_cases hcm : c ∈ (alookup s.sub_games g).getD []
          · simp [hcm] at hc
          · rw [if_neg hcm] at hc
            intro hpe
            rw [hpe] at hc
            by_cases hcg : c = g
            · rw [hcg, alookup_aerase_self] at hc
              cases hc
            · rw [alookup_aerase_ne _ hcg] at hc
              exact hcm ((hwf.rev g c).2 hc)
        · intro p
          simp only [get_sub_games]
          by_cases hpg : p = g
          · rw [hpg, alookup_aerase_self]
            simp
          · rw [alookup_aerase_ne _ hpg]
            intro hmem
            have := (hwf.rev p g).1 hmem
            rw [hpar] at this
            cases this
    | some parent =>
        have hppos : parent ≠ 0 := hwf.parent_pos g parent hpar
        have hshape : remove_game s g = (true, { s with
            aliases := s.aliases.filter (fun p => p.2.game_id ≠ g),
            games := aerase s.games g,
            parent_games := ((alookup (aset s.sub_games parent
                (((alookup s.sub_games parent).getD []).erase g)) g).getD []).foldl
              (fun m c => aerase m c) (aerase s.parent_games g),
            sub_games := aerase (aset s.sub_games parent
              (((alookup s.sub_games parent).getD []).erase g)) g }) := by
          simp only [remove_game, remove_game_f, hg, hpar, hppos, Option.isNone_some,
            Bool.false_eq_true, if_false, ne_eq, not_false_eq_true, if_true]
        rw [hshape]
        refine ⟨rfl, ?_, alookup_aerase_self .., ?_, ?_, alookup_aerase_self .., ?_⟩
        · intro a ha
          obtain ⟨kv, hkv, hsnd⟩ := List.mem_map.1 ha
          have hpred := (List.mem_filter.1 hkv).2
          rw [← hsnd]
          simpa using hpred
        · rw [alookup_foldl_aerase]
          by_cases hgc : g ∈ (alookup (aset s.sub_games parent
              (((alookup s.sub_games parent).getD []).erase g)) g).getD []
          · simp [hgc]
          · simp [hgc, alookup_aerase_self]
        · intro c p hc
          rw [alookup_foldl_aerase] at hc
          by_cases hcm : c ∈ (alookup (aset s.sub_games parent
              (((alookup s.sub_games parent).getD []).erase g)) g).getD []
          · simp [hcm] at hc
          · rw [if_neg hcm] at hc
            intro hpe
            rw [hpe] at hc
            by_cases hcg : c = g
            · rw [hcg, alookup_aerase_self] at hc
              cases hc
            · rw [alookup_aerase_ne _ hcg] at hc
              have hcsub : c ∈ (alookup s.sub_games g).getD [] :=
                (hwf.rev g c).2 hc
              apply hcm
              by_cases hpe2 : parent = g
              · subst hpe2
                rw [alookup_aset_self, Option.getD_some]
                exact (List.mem_erase_of_ne hcg).2 hcsub
              · rw [alookup_aset_ne _ (Ne.symm hpe2)]
                exact hcsub
        · intro p
          simp only [get_sub_games]
          by_cases hpg : p = g
          · rw [hpg, alookup_aerase_self]
            simp
          · rw [alookup_aerase_ne _ hpg]
            by_cases hpp : p = parent
            · rw [hpp, alookup_aset_self, Option.getD_some]
              exact (hwf.sub_nodup parent).not_mem_erase
            · rw [alookup_aset_ne _ hpp]
              intro hmem
              have := (hwf.rev p g).1 hmem
              rw [hpar] at this
              exact hpp (Option.some.inj this).symm

/-- Witness for C2 at the concrete catalog `exDB`: removing game 1
(parent A with children and an alias) and probing an unknown id. -/
theorem remove_game_cascade_witness :
    remove_game exDB 9 = (false, exDB) ∧
    (remove_game exDB 1).1 = true ∧
    alookup (remove_game exDB 1).2.games 1 = none ∧
    (∀ p, 1 ∉ (get_sub_games (remove_game exDB 1).2 p).getD []) := by
  have hsub : ∀ p, alookup exDB.sub_games p =
      if 1 = p then some [2, 3] else none := fun p => rfl
  have hpg : ∀ c, alookup exDB.parent_games c =
      if 2 = c then some 1 else if 3 = c then some 1 else none := fun c => rfl
  have hwf : HierWF exDB := by
    refine ⟨?_, ?_, ?_⟩
    · intro p c
      rw [hsub p, hpg c]
      by_cases hp : 1 = p
      · rw [if_pos hp]
        by_cases hc2 : 2 = c
        · rw [if_pos hc2, ← hp, ← hc2]
          simp
        · rw [if_neg hc2]
          by_cases hc3 : 3 = c
          · rw [if_pos hc3, ← hp, ← hc3]
            simp
          · rw [if_neg hc3]
            constructor
            · intro hm
              rw [Option.getD_some] at hm
              rcases List.mem_cons.1 hm with he | hm2
              · exact absurd he.symm hc2
              · exact absurd (List.mem_singleton.1 hm2).symm hc3
            · intro hm
              cases hm
      · rw [if_neg hp]
        constructor
        · intro hm
          simp at hm
        · intro hm
          by_cases hc2 : 2 = c
          · rw [if_pos hc2] at hm
            exact absurd (Option.some.inj hm) hp
          · rw [if_neg hc2] at hm
            by_cases hc3 : 3 = c
            · rw [if_pos hc3] at hm
              exact absurd (Option.some.inj hm) hp
            · rw [if_neg hc3] at hm
              cases hm
    · intro p
      rw [hsub p]
      by_cases hp : 1 = p
      · rw [if_pos hp]
        simp
      · rw [if_neg hp]
        simp
    · intro c p hm
      rw [hpg c] at hm
      by_cases hc2 : 2 = c
      · rw [if_pos hc2] at hm
        rw [← Option.some.inj hm]
        decide
      · rw [if_neg hc2] at hm
        by_cases hc3 : 3 = c
        · rw [if_pos hc3] at hm
          rw [← Option.some.inj hm]
          decide
        · rw [if_neg hc3] at hm
          cases hm
  have h := remove_game_cascade_complete.2 exDB 1 ⟨"A", 10, 1⟩ hwf rfl
  exact ⟨remove_game_cascade_complete.1 exDB 9 rfl, h.1, h.2.2.1, h.2.2.2.2.2.2⟩

end UMCP
